import Mathlib

set_option maxRecDepth 100000

/-!
Shallow embedding of the data-dependence-graph (DDG) builder in `ddg.py`.

The embedding mirrors the Python source function by function:
* `scannedUpdate` / `scannedAfter` — the per-pop update of the `scanned_runs`
  counter in `DDG.construct` (lines 220-223).
* `findFrameIdx` / `findFrameByAddr` — the nested `_find_frame_by_addr`
  (lines 193-210).
* `processWrite` / `processReads` / `processStmts` — the basic-block branch of
  the forward walk (lines 238-293).
* `processProcRefs` — the summary-run (SimProcedure) branch (lines 299-334),
  parameterised by the stale loop variable `i` that branch reads.
* `expandSuccessor` — the successor-expansion step (lines 362-394).
* `traceSeed` / `traceStep` / `traceLoop` / `traceSource` — `DDG._trace_source`
  (lines 25-120).  The Python `while` loop is embedded as iteration of a step
  function; in-place mutation of the memoised set (`traced[run.addr]` aliases
  the popped `reg_deps` object) is modelled by its net effect: the memo entry
  holds the post-processing dependency set when the predecessor checks run.
* `addProducer` / `buildProducers` / `solveSymbolicMemOps` —
  `DDG._solve_symbolic_mem_operations` (lines 122-147).

Machine integers are modelled as `Int` (addresses, statement indices) and `ℕ`
(register offsets, temporaries); Python `set`s of dependency offsets become
`Finset ℕ`; Python `dict`s become association lists with first-match lookup;
fallible attribute accesses and raised exceptions become `Except String`.
-/

/-- `MAX_BBL_ANALYZE_TIMES` from `ddg.py` line 12. -/
def MAX_BBL_ANALYZE_TIMES : ℕ := 40

/-- A symbolic expression as consumed by the DDG builder: the code only asks
`is_symbolic()` and concretizes with `any()`. -/
structure SymVal where
  is_symbolic : Bool
  any : Int
deriving DecidableEq

/-- The payload of a `SimRef`, one constructor per reference class from
`simuvex.s_ref` used in `ddg.py`. -/
inductive RefData where
  | regRead (offset : ℕ) (data_reg_deps data_tmp_deps : Finset ℕ)
  | regWrite (offset : ℕ) (data_reg_deps data_tmp_deps : Finset ℕ)
  | tmpRead (tmp : ℕ) (data_reg_deps data_tmp_deps : Finset ℕ)
  | tmpWrite (tmp : ℕ) (data_reg_deps data_tmp_deps : Finset ℕ)
  | memRead (addr : SymVal) (addr_reg_deps addr_tmp_deps data_reg_deps data_tmp_deps : Finset ℕ)
  | memWrite (addr : SymVal) (addr_reg_deps addr_tmp_deps data_reg_deps data_tmp_deps : Finset ℕ)
deriving DecidableEq

/-- A reference: its `stmt_idx` attribute plus the variant payload. -/
structure Ref where
  stmt_idx : Int
  data : RefData
deriving DecidableEq

/-- A statement: an ordered list of references; `refs[-1]` is the real ref. -/
structure Stmt where
  refs : List Ref
deriving DecidableEq

/-- A simulated run: a `SimIRSB` (basic block with statements) or a
`SimProcedure` (summary run exposing a flat `refs()` list). -/
inductive Run where
  | irsb (addr : Int) (statements : List Stmt)
  | procedure (addr : Int) (refs : List Ref)
deriving DecidableEq

/-- The `addr` attribute of a run. -/
def Run.addr : Run → Int
  | .irsb a _ => a
  | .procedure a _ => a

/-- Python list indexing (negative indices wrap from the end; out of range
raises, modelled as `none`). -/
def pyGet {α : Type} (l : List α) (i : Int) : Option α :=
  if 0 ≤ i then l.get? i.toNat
  else if 0 ≤ i + l.length then l.get? (i + (l.length : Int)).toNat
  else none

/-- First-match association-list lookup (Python `dict` access / `in`). -/
def lookupA {α β : Type} [DecidableEq α] : List (α × β) → α → Option β
  | [], _ => none
  | (k, v) :: rest, k' => if k' = k then some v else lookupA rest k'

/-- Association-list overwrite (`d[k] = v`): replace the first binding of `k`,
or append a new binding. -/
def updA {α β : Type} [DecidableEq α] : List (α × β) → α → β → List (α × β)
  | [], k, v => [(k, v)]
  | (k', v') :: rest, k, v =>
      if k' = k then (k', v) :: rest else (k', v') :: updA rest k v

/-!
## C1: the `scanned_runs` counter (`construct`, lines 220-223)

The loop body runs, for the popped wrapper's run `r`:
```
if scanned_runs[run] > MAX_BBL_ANALYZE_TIMES: continue
else: scanned_runs[run] += 1
```
`scanned_runs` is a `defaultdict(int)`, so every counter starts at 0 and is
mutated only by this update, once per pop.  `scannedAfter pops r` is the value
of `scanned_runs[r]` after the loop has popped the wrappers whose run
addresses are listed in `pops` (in order).
-/

/-- The per-pop counter update from `construct` lines 220-223. -/
def scannedUpdate (c : ℕ) : ℕ :=
  if MAX_BBL_ANALYZE_TIMES < c then c else c + 1

/-- The `scanned_runs` map (keyed by run address) after a sequence of pops,
starting from the `defaultdict(int)` initial state. -/
def scannedAfter (pops : List Int) (r : Int) : ℕ :=
  (pops.foldl (fun m p => fun r' => if r' = p then scannedUpdate (m r') else m r')
    (fun _ => 0)) r

theorem scannedUpdate_le (c : ℕ) (h : c ≤ MAX_BBL_ANALYZE_TIMES + 1) :
    scannedUpdate c ≤ MAX_BBL_ANALYZE_TIMES + 1 := by
  unfold scannedUpdate
  split <;> omega

theorem scannedAfter_foldl_le (pops : List Int) (m : Int → ℕ)
    (hm : ∀ r, m r ≤ MAX_BBL_ANALYZE_TIMES + 1) :
    ∀ r, (pops.foldl (fun m p => fun r' => if r' = p then scannedUpdate (m r') else m r') m) r
      ≤ MAX_BBL_ANALYZE_TIMES + 1 := by
  induction pops generalizing m with
  | nil => exact hm
  | cons p rest ih =>
      refine ih _ ?_
      intro r
      by_cases h : r = p
      · simpa [h] using scannedUpdate_le (m p) (hm p)
      · simpa [h] using hm r

/-- C1 counterexample: after 41 pops of the same run, the counter reaches 41,
which violates the claimed invariant `scanned[run] ≤ MAX_BBL_ANALYZE_TIMES`
(the guard is `> MAX`, so the increment still fires at `scanned = 40`). -/
theorem scanned_counter_reaches_41 :
    scannedAfter (List.replicate 41 7) 7 = 41 ∧
    ¬ scannedAfter (List.replicate 41 7) 7 ≤ MAX_BBL_ANALYZE_TIMES := by
  exact ⟨by decide, by decide⟩

/-- C1 (amended): for every run and at every point during `construct()`, the
scan counter satisfies `scanned[run] ≤ MAX_BBL_ANALYZE_TIMES + 1` (= 41), and
a popped wrapper whose run exceeds the bound (`scanned > 40`) is skipped with
its counter left unchanged. -/
theorem scanned_counter_bounded :
    (∀ (pops : List Int) (r : Int), scannedAfter pops r ≤ MAX_BBL_ANALYZE_TIMES + 1) ∧
    (∀ c : ℕ, MAX_BBL_ANALYZE_TIMES < c → scannedUpdate c = c) := by
  constructor
  · intro pops r
    exact scannedAfter_foldl_le pops _ (fun _ => by omega) r
  · intro c h
    unfold scannedUpdate
    rw [if_pos h]

/-- Witness for `scanned_counter_bounded`: a frozen counter (value 41 > 40) is
left unchanged by a further pop. -/
theorem scanned_counter_bounded_witness : scannedUpdate 41 = 41 :=
  scanned_counter_bounded.2 41 (by decide)

/-!
## Stack frames and `_find_frame_by_addr` (`construct`, lines 193-210)
-/

/-- `StackFrame` from `ddg.py` lines 399-405: an optional initial stack
pointer and the per-frame concrete `addr_to_ref` map
(`address -> (run_addr, stmt_id)`). -/
structure StackFrame where
  initial_sp : Option Int
  addr_to_ref : List (Int × (Int × Int))
deriving DecidableEq

/-- Explicit index/element enumeration, used to reason about
`reversed(stack)` together with list positions. -/
def enumList {α : Type} : ℕ → List α → List (ℕ × α)
  | _, [] => []
  | j, x :: rest => (j, x) :: enumList (j + 1) rest

/-- The `for fr in reversed(stack)` loop of `_find_frame_by_addr`
(lines 205-209): return the position of the first frame (walking the supplied
index/frame pairs in order) whose `initial_sp` is `None` or strictly greater
than `addr`. -/
def frameLoop (addr : Int) : List (ℕ × StackFrame) → Option ℕ
  | [] => none
  | (j, fr) :: rest =>
      match fr.initial_sp with
      | none => some j
      | some sp => if addr < sp then some j else frameLoop addr rest

/-- `_find_frame_by_addr` (lines 193-210), returning the index of the selected
frame (list index 0 = the outermost frame; frames are appended on call).
`none` models the `Exception("Stack is empty")` raised on an empty stack. -/
def findFrameIdx (stack_lbound stack_ubound : Int) (stack : List StackFrame)
    (addr : Int) : Option ℕ :=
  if stack = [] then none
  else if ¬ (stack_lbound ≤ addr ∧ addr ≤ stack_ubound) then some 0
  else
    match frameLoop addr (enumList 0 stack).reverse with
    | some j => some j
    | none => some 0

/-- `_find_frame_by_addr` returning the selected frame itself. -/
def findFrameByAddr (stack_lbound stack_ubound : Int) (stack : List StackFrame)
    (addr : Int) : Option StackFrame :=
  (findFrameIdx stack_lbound stack_ubound stack addr).bind stack.get?

/-- The frame-selection predicate as the claim words it: `initial_sp` is
`none` or strictly greater than `addr`. -/
def framePredB (addr : Int) (fr : StackFrame) : Bool :=
  match fr.initial_sp with
  | none => true
  | some sp => decide (addr < sp)

/-- `_find_frame_by_addr` as the claim C6 words it (refinement comparison
definition, built from the spec text, not from the code): outside
`[stack_lbound, stack_ubound]` return the outermost frame; otherwise the first
frame, scanning innermost to outermost, whose `initial_sp` is `none` or
strictly greater than `addr`, falling back to the outermost frame. -/
def specFindFrame (stack_lbound stack_ubound : Int) (stack : List StackFrame)
    (addr : Int) : Option StackFrame :=
  if stack = [] then none
  else if ¬ (stack_lbound ≤ addr ∧ addr ≤ stack_ubound) then stack.head?
  else
    match stack.reverse.find? (framePredB addr) with
    | some fr => some fr
    | none => stack.head?

theorem frameLoop_eq_find? (addr : Int) (ps : List (ℕ × StackFrame)) :
    frameLoop addr ps = (ps.find? (fun p => framePredB addr p.2)).map Prod.fst := by
  induction ps with
  | nil => rfl
  | cons p rest ih =>
      obtain ⟨j, fr⟩ := p
      unfold frameLoop
      cases h : fr.initial_sp with
      | none => simp [List.find?_cons, framePredB, h]
      | some sp =>
          by_cases hlt : addr < sp
          · simp [List.find?_cons, framePredB, h, hlt]
          · simp [List.find?_cons, framePredB, h, hlt, ih]

theorem map_snd_enumList {α : Type} (l : List α) :
    ∀ j, (enumList j l).map Prod.snd = l := by
  induction l with
  | nil => intro _; rfl
  | cons x rest ih => intro j; simp [enumList, ih]

theorem mem_enumList {α : Type} (l : List α) :
    ∀ (k j : ℕ) (x : α), (j, x) ∈ enumList k l →
      ∃ m, j = k + m ∧ l.get? m = some x := by
  induction l with
  | nil => intro k j x h; cases h
  | cons y rest ih =>
      intro k j x h
      rw [enumList] at h
      rcases List.mem_cons.mp h with h1 | h2
      · rw [Prod.mk.injEq] at h1
        obtain ⟨hj, hx⟩ := h1
        exact ⟨0, by omega, by simp [hx]⟩
      · obtain ⟨m, hj, hg⟩ := ih (k + 1) j x h2
        exact ⟨m + 1, by omega, by simpa using hg⟩

theorem find?_reverse_enum (addr : Int) (stack : List StackFrame) :
    stack.reverse.find? (framePredB addr)
      = ((enumList 0 stack).reverse.find? (fun p => framePredB addr p.2)).map Prod.snd := by
  conv_lhs => rw [← map_snd_enumList stack 0]
  rw [← List.map_reverse, List.find?_map]
  rfl

/-- C6: for every non-empty call stack and every address, `_find_frame_by_addr`
computes exactly what the claim describes: if the address lies outside
`[stack_lbound, stack_ubound]` it returns the outermost frame; otherwise it
returns the first frame, scanning innermost to outermost, whose `initial_sp`
is `none` or strictly greater than the address, falling back to the outermost
frame (`specFindFrame` is that description verbatim). -/
theorem find_frame_by_addr_correct (stack_lbound stack_ubound addr : Int)
    (stack : List StackFrame) (h : stack ≠ []) :
    findFrameByAddr stack_lbound stack_ubound stack addr
      = specFindFrame stack_lbound stack_ubound stack addr := by
  unfold findFrameByAddr findFrameIdx specFindFrame
  rw [if_neg h, if_neg h]
  by_cases hb : stack_lbound ≤ addr ∧ addr ≤ stack_ubound
  · rw [if_neg (not_not_intro hb), if_neg (not_not_intro hb)]
    rw [frameLoop_eq_find?, find?_reverse_enum addr stack]
    cases hf : (enumList 0 stack).reverse.find? (fun p => framePredB addr p.2) with
    | none => simp [Option.bind, List.get?_zero, ← List.head?_eq_getElem?]
    | some p =>
        obtain ⟨j, fr⟩ := p
        have hmem := List.mem_of_find?_eq_some hf
        rw [List.mem_reverse] at hmem
        obtain ⟨m, hj, hg⟩ := mem_enumList stack 0 j fr hmem
        have hget : stack.get? j = some fr := by
          rw [show j = m by omega]
          exact hg
        simpa using hget
  · rw [if_pos hb, if_pos hb]
    simp [Option.bind, List.get?_zero, ← List.head?_eq_getElem?]

/-- Witness for `find_frame_by_addr_correct` at a concrete one-frame stack. -/
theorem find_frame_by_addr_correct_witness :
    findFrameByAddr 0 100 [⟨some 50, []⟩] 60 = specFindFrame 0 100 [⟨some 50, []⟩] 60 :=
  find_frame_by_addr_correct 0 100 60 [⟨some 50, []⟩] (by simp)

/-!
## Forward walk: per-run reference processing (`construct`, lines 229-334)
-/

/-- The driver state mutated while scanning one run's references: the current
wrapper's call stack, the DDG edge set (`ddg[reader][stmt] ∋ writer` becomes
the edge `((reader_addr, reader_stmt), (writer_addr, writer_stmt))`), the
symbolic-memory-op set, and `reanalyze_successors_flag`. -/
structure WalkSt where
  call_stack : List StackFrame
  ddg : Finset ((Int × Int) × (Int × Int))
  symbolic_mem_ops : Finset (Run × Ref)
  reanalyze_successors : Bool
deriving DecidableEq

/-- The `SimMemWrite` branch for a basic-block statement's real ref
(`construct` lines 246-266).  `old_run` is the pre-`reanalyze` run object
(the code stores `(old_irsb, real_ref)` in the symbolic-op set), `i` the
statement index. -/
def processWrite (old_run : Run) (lb ub irsb_addr i : Int) (real_ref : Ref)
    (st : WalkSt) : Except String WalkSt :=
  match real_ref.data with
  | .memWrite a _ _ _ _ =>
      if a.is_symbolic then
        .ok { st with symbolic_mem_ops := insert (old_run, real_ref) st.symbolic_mem_ops }
      else
        let concrete_addr := a.any
        let tpl : Int × Int := (irsb_addr, i)
        match findFrameIdx lb ub st.call_stack concrete_addr with
        | none => .error "Stack is empty"
        | some fi =>
            match st.call_stack.get? fi with
            | none => .error "frame index out of range"
            | some fr =>
                if lookupA fr.addr_to_ref concrete_addr = some tpl then .ok st
                else .ok { st with
                    call_stack := st.call_stack.set fi
                      { fr with addr_to_ref := updA fr.addr_to_ref concrete_addr tpl },
                    reanalyze_successors := true }
  | _ => .ok st

/-- The `for ref in refs` loop over a basic-block statement scanning
`SimMemRead`s (`construct` lines 267-293): a concrete read whose frame lookup
hits adds one DDG edge and `break`s out of the loop; a symbolic read joins the
symbolic-op set; anything else is skipped. -/
def processReads (old_run : Run) (lb ub irsb_addr i : Int) :
    List Ref → WalkSt → Except String WalkSt
  | [], st => .ok st
  | ref :: rest, st =>
      match ref.data with
      | .memRead a _ _ _ _ =>
          if a.is_symbolic then
            processReads old_run lb ub irsb_addr i rest
              { st with symbolic_mem_ops := insert (old_run, ref) st.symbolic_mem_ops }
          else
            let concrete_addr := a.any
            match findFrameByAddr lb ub st.call_stack concrete_addr with
            | none => .error "Stack is empty"
            | some fr =>
                match lookupA fr.addr_to_ref concrete_addr with
                | some tpl => .ok { st with ddg := insert ((irsb_addr, i), tpl) st.ddg }
                | none => processReads old_run lb ub irsb_addr i rest st
      | _ => processReads old_run lb ub irsb_addr i rest st

/-- One basic-block statement (`construct` lines 239-293): skip when it has no
refs, else run the write branch on `refs[-1]` and then the read-scanning
loop. -/
def processStmt (old_run : Run) (lb ub irsb_addr : Int) (st : WalkSt)
    (p : ℕ × Stmt) : Except String WalkSt :=
  match p.2.refs.getLast? with
  | none => .ok st
  | some real_ref => do
      let st' ← processWrite old_run lb ub irsb_addr (Int.ofNat p.1) real_ref st
      processReads old_run lb ub irsb_addr (Int.ofNat p.1) p.2.refs st'

/-- The statement loop of the basic-block branch (`construct` lines 238-293). -/
def processStmts (old_run : Run) (lb ub irsb_addr : Int) (stmts : List Stmt)
    (st : WalkSt) : Except String WalkSt :=
  (enumList 0 stmts).foldlM (processStmt old_run lb ub irsb_addr) st

/-- The summary-run (SimProcedure) branch (`construct` lines 299-334).
`stale_i` is the value the Python name `i` holds when this branch runs: the
last index of the most recently processed basic block's statement loop, or
`none` (→ `NameError`) when no basic-block statement loop has run yet.  The
concrete-write branch stores `(sim_proc.addr, i)` — the stale `i`, not the
`-1` sentinel — and a resolved concrete read adds its DDG edge under reader
statement `-1` and `break`s out of the whole loop. -/
def processProcRefs (old_run : Run) (proc_addr : Int) (stale_i : Option Int)
    (lb ub : Int) : List Ref → WalkSt → Except String WalkSt
  | [], st => .ok st
  | ref :: rest, st =>
      match ref.data with
      | .memWrite a _ _ _ _ =>
          if a.is_symbolic then
            processProcRefs old_run proc_addr stale_i lb ub rest
              { st with symbolic_mem_ops := insert (old_run, ref) st.symbolic_mem_ops }
          else
            let concrete_addr := a.any
            match stale_i with
            | none => .error "NameError: name i is not defined"
            | some i =>
                let tpl : Int × Int := (proc_addr, i)
                match findFrameIdx lb ub st.call_stack concrete_addr with
                | none => .error "Stack is empty"
                | some fi =>
                    match st.call_stack.get? fi with
                    | none => .error "frame index out of range"
                    | some fr =>
                        if lookupA fr.addr_to_ref concrete_addr = some tpl then
                          processProcRefs old_run proc_addr stale_i lb ub rest st
                        else
                          processProcRefs old_run proc_addr stale_i lb ub rest
                            { st with
                              call_stack := st.call_stack.set fi
                                { fr with addr_to_ref := updA fr.addr_to_ref concrete_addr tpl },
                              reanalyze_successors := true }
      | .memRead a _ _ _ _ =>
          if a.is_symbolic then
            processProcRefs old_run proc_addr stale_i lb ub rest
              { st with symbolic_mem_ops := insert (old_run, ref) st.symbolic_mem_ops }
          else
            let concrete_addr := a.any
            match findFrameByAddr lb ub st.call_stack concrete_addr with
            | none => .error "Stack is empty"
            | some fr =>
                match lookupA fr.addr_to_ref concrete_addr with
                | some tpl => .ok { st with ddg := insert ((proc_addr, -1), tpl) st.ddg }
                | none => processProcRefs old_run proc_addr stale_i lb ub rest st
      | _ => processProcRefs old_run proc_addr stale_i lb ub rest st

/-!
## Successor expansion (`construct`, lines 362-394)
-/

/-- The abstract state carried by an exit; the code only reads
`sp_value()`/`.any()` from it. -/
structure SimState where
  sp : SymVal
deriving DecidableEq

/-- A `SimExit`: its concretized target, jumpkind string, and outgoing
state. -/
structure SExit where
  target : Int
  jumpkind : String
  state : SimState
deriving DecidableEq

/-- Expansion of one CFG successor (`construct` lines 362-394): pick the exit
whose `concretize()` equals the successor address (state `none`, after a
warning, when there is none), then apply the jumpkind policy of
`new_run.exits()[0]` to a copy of the call stack.  The `Ijk_Call` branch reads
`new_state.sp_value()`, which raises when `new_state` is `None`; `exits()[0]`
raises on an empty exit list. -/
def expandSuccessor (pending_exits : List SExit) (succ_addr : Int)
    (call_stack : List StackFrame) : Except String (Option SimState × List StackFrame) :=
  let succ_exit := pending_exits.filter (fun ex => ex.target = succ_addr)
  let new_state : Option SimState :=
    match succ_exit with
    | [] => none
    | ex :: _ => some ex.state
  match pending_exits.head? with
  | none => .error "IndexError: list index out of range"
  | some primary =>
      if primary.jumpkind = "Ijk_Call" then
        match new_state with
        | none => .error "AttributeError: NoneType object has no attribute sp_value"
        | some s =>
            .ok (new_state, call_stack ++ [{ initial_sp := some s.sp.any, addr_to_ref := [] }])
      else if primary.jumpkind = "Ijk_Ret" then
        if call_stack.length > 1 then .ok (new_state, call_stack.dropLast)
        else .ok (new_state, call_stack)
      else .ok (new_state, call_stack)

/-- C4 counterexample: when no exit concretizes to the successor's address and
the primary exit's jumpkind is `Ijk_Call`, the walker dereferences the missing
state (`new_state.sp_value()` with `new_state = None`) and the build aborts —
refuting "never aborts ... regardless of the primary exit's jumpkind". -/
theorem expand_successor_call_none_aborts :
    expandSuccessor [⟨0x500, "Ijk_Call", ⟨⟨false, 0x7f00⟩⟩⟩] 0x600 [⟨some 0x8000, []⟩]
      = .error "AttributeError: NoneType object has no attribute sp_value" := by
  rfl

/-- C4 (amended): whenever no outgoing exit of the reanalyzed run concretizes
to the successor's address, the walker proceeds with state `none` for that
successor, and this is recoverable — provided the primary exit's jumpkind is
not `Ijk_Call` (for `Ijk_Call` the walker reads `sp_value` of the missing
state and aborts, see the counterexample). -/
theorem expand_successor_none_state_recovers (pending_exits : List SExit)
    (succ_addr : Int) (call_stack : List StackFrame) (primary : SExit)
    (h0 : pending_exits.head? = some primary)
    (hk : primary.jumpkind ≠ "Ijk_Call")
    (hm : ∀ ex ∈ pending_exits, ex.target ≠ succ_addr) :
    expandSuccessor pending_exits succ_addr call_stack
      = .ok (none, if primary.jumpkind = "Ijk_Ret" then
               (if call_stack.length > 1 then call_stack.dropLast else call_stack)
             else call_stack) := by
  unfold expandSuccessor
  have hfil : pending_exits.filter (fun ex => decide (ex.target = succ_addr)) = [] := by
    rw [List.filter_eq_nil_iff]
    intro ex hex
    simpa using hm ex hex
  rw [hfil, h0]
  simp only [if_neg hk]
  by_cases hr : primary.jumpkind = "Ijk_Ret"
  · rw [if_pos hr, if_pos hr]
    by_cases hl : call_stack.length > 1
    · rw [if_pos hl, if_pos hl]
    · rw [if_neg hl, if_neg hl]
  · rw [if_neg hr, if_neg hr]

/-- Witness for `expand_successor_none_state_recovers`: a Boring primary exit
with an unmatched successor proceeds with state `none` and an unchanged
stack. -/
theorem expand_successor_none_state_recovers_witness :
    expandSuccessor [⟨0x500, "Ijk_Boring", ⟨⟨false, 0⟩⟩⟩] 0x600 [⟨some 0x8000, []⟩]
      = .ok (none, if (SExit.mk 0x500 "Ijk_Boring" ⟨⟨false, 0⟩⟩).jumpkind = "Ijk_Ret" then
               (if ([⟨some 0x8000, []⟩] : List StackFrame).length > 1 then
                  ([⟨some 0x8000, []⟩] : List StackFrame).dropLast else [⟨some 0x8000, []⟩])
             else [⟨some 0x8000, []⟩]) :=
  expand_successor_none_state_recovers [⟨0x500, "Ijk_Boring", ⟨⟨false, 0⟩⟩⟩] 0x600
    [⟨some 0x8000, []⟩] ⟨0x500, "Ijk_Boring", ⟨⟨false, 0⟩⟩⟩ rfl (by decide) (by decide)

/-!
## C8: one resolved dependency per statement
-/

/-- `_find_frame_by_addr` never fails on a non-empty stack. -/
theorem findFrameByAddr_isSome (lb ub addr : Int) (stack : List StackFrame)
    (h : stack ≠ []) :
    ∃ fr, findFrameByAddr lb ub stack addr = some fr := by
  cases stack with
  | nil => exact absurd rfl h
  | cons y ys =>
      unfold findFrameByAddr findFrameIdx
      rw [if_neg h]
      by_cases hb : ¬ (lb ≤ addr ∧ addr ≤ ub)
      · rw [if_pos hb]
        exact ⟨y, rfl⟩
      · rw [if_neg hb, frameLoop_eq_find?]
        cases hp : (enumList 0 (y :: ys)).reverse.find? (fun p => framePredB addr p.2) with
        | none => exact ⟨y, rfl⟩
        | some p =>
            obtain ⟨j, fr⟩ := p
            have hmem := List.mem_of_find?_eq_some hp
            rw [List.mem_reverse] at hmem
            obtain ⟨m, hm, hg⟩ := mem_enumList (y :: ys) 0 j fr hmem
            refine ⟨fr, ?_⟩
            have hget : (y :: ys).get? j = some fr := by
              rw [show j = m by omega]
              exact hg
            simpa using hget

/-- A reference the read-scanning loop passes over without `break`ing: not a
`MemRead`, or symbolic, or a concrete read whose frame lookup misses. -/
def readMisses (lb ub : Int) (stack : List StackFrame) (ref : Ref) : Prop :=
  match ref.data with
  | .memRead a _ _ _ _ =>
      a.is_symbolic = true ∨
        ∀ fr, findFrameByAddr lb ub stack a.any = some fr →
          lookupA fr.addr_to_ref a.any = none
  | _ => True

theorem processReads_first_hit (old_run : Run) (lb ub irsb_addr i : Int)
    (r : Ref) (a : SymVal) (areg atmp dreg dtmp : Finset ℕ) (fr : StackFrame)
    (tpl : Int × Int) (hr : r.data = .memRead a areg atmp dreg dtmp)
    (hc : a.is_symbolic = false) :
    ∀ (pre : List Ref) (st : WalkSt),
      (∀ ref ∈ pre, readMisses lb ub st.call_stack ref) →
      findFrameByAddr lb ub st.call_stack a.any = some fr →
      lookupA fr.addr_to_ref a.any = some tpl →
      (∀ suffix, processReads old_run lb ub irsb_addr i (pre ++ r :: suffix) st
          = processReads old_run lb ub irsb_addr i (pre ++ [r]) st)
      ∧ ∃ so, processReads old_run lb ub irsb_addr i (pre ++ [r]) st
          = .ok ⟨st.call_stack, insert ((irsb_addr, i), tpl) st.ddg, so,
                 st.reanalyze_successors⟩ := by
  intro pre
  induction pre with
  | nil =>
      intro st _ hfr hhit
      constructor
      · intro suffix
        simp [processReads, hr, hc, hfr, hhit]
      · refine ⟨st.symbolic_mem_ops, ?_⟩
        simp [processReads, hr, hc, hfr, hhit]
  | cons p rest ih =>
      intro st hpre hfr hhit
      have hp := hpre p (List.mem_cons_self p rest)
      have hrest : ∀ ref ∈ rest, readMisses lb ub st.call_stack ref :=
        fun ref h => hpre ref (List.mem_cons_of_mem p h)
      cases hpd : p.data with
      | memRead pa pareg patmp pdreg pdtmp =>
          simp only [readMisses, hpd] at hp
          by_cases hsym : pa.is_symbolic = true
          · have hih := ih { st with
                symbolic_mem_ops := insert (old_run, p) st.symbolic_mem_ops }
              hrest hfr hhit
            constructor
            · intro suffix
              simp only [List.cons_append, processReads, hpd, hsym, if_pos]
              exact hih.1 suffix
            · obtain ⟨so, hso⟩ := hih.2
              refine ⟨so, ?_⟩
              simp only [List.cons_append, processReads, hpd, hsym, if_pos]
              exact hso
          · have hsym' : pa.is_symbolic = false := by
              cases hv : pa.is_symbolic
              · rfl
              · exact absurd hv hsym
            have hne : st.call_stack ≠ [] := by
              intro hnil
              rw [hnil] at hfr
              simp [findFrameByAddr, findFrameIdx] at hfr
            obtain ⟨fr', hfr'⟩ := findFrameByAddr_isSome lb ub pa.any st.call_stack hne
            have hmiss : lookupA fr'.addr_to_ref pa.any = none := by
              rcases hp with hp | hp
              · exact absurd hp hsym
              · exact hp fr' hfr'
            have hih := ih st hrest hfr hhit
            constructor
            · intro suffix
              simp only [List.cons_append, processReads, hpd, hsym', hfr', hmiss,
                Bool.false_eq_true, if_false]
              exact hih.1 suffix
            · obtain ⟨so, hso⟩ := hih.2
              refine ⟨so, ?_⟩
              simp only [List.cons_append, processReads, hpd, hsym', hfr', hmiss,
                Bool.false_eq_true, if_false]
              exact hso
      | regRead o d t =>
          have hih := ih st hrest hfr hhit
          exact ⟨fun suffix => by
              simp only [List.cons_append, processReads, hpd]
              exact hih.1 suffix,
            by
              obtain ⟨so, hso⟩ := hih.2
              exact ⟨so, by simp only [List.cons_append, processReads, hpd]; exact hso⟩⟩
      | regWrite o d t =>
          have hih := ih st hrest hfr hhit
          exact ⟨fun suffix => by
              simp only [List.cons_append, processReads, hpd]
              exact hih.1 suffix,
            by
              obtain ⟨so, hso⟩ := hih.2
              exact ⟨so, by simp only [List.cons_append, processReads, hpd]; exact hso⟩⟩
      | tmpRead o d t =>
          have hih := ih st hrest hfr hhit
          exact ⟨fun suffix => by
              simp only [List.cons_append, processReads, hpd]
              exact hih.1 suffix,
            by
              obtain ⟨so, hso⟩ := hih.2
              exact ⟨so, by simp only [List.cons_append, processReads, hpd]; exact hso⟩⟩
      | tmpWrite o d t =>
          have hih := ih st hrest hfr hhit
          exact ⟨fun suffix => by
              simp only [List.cons_append, processReads, hpd]
              exact hih.1 suffix,
            by
              obtain ⟨so, hso⟩ := hih.2
              exact ⟨so, by simp only [List.cons_append, processReads, hpd]; exact hso⟩⟩
      | memWrite wa wareg watmp wdreg wdtmp =>
          have hih := ih st hrest hfr hhit
          exact ⟨fun suffix => by
              simp only [List.cons_append, processReads, hpd]
              exact hih.1 suffix,
            by
              obtain ⟨so, hso⟩ := hih.2
              exact ⟨so, by simp only [List.cons_append, processReads, hpd]; exact hso⟩⟩

/-- Concrete write-then-read block for the C8 boundary scenario. -/
def demoWriteRef : Ref := ⟨0, .memWrite ⟨false, 0x7FFFFFF0⟩ ∅ ∅ ∅ ∅⟩

/-- Concrete read of the address `demoWriteRef` wrote. -/
def demoReadRef : Ref := ⟨1, .memRead ⟨false, 0x7FFFFFF0⟩ ∅ ∅ ∅ ∅⟩

/-- The two statements of the demo block: a concrete `MemWrite` then a
concrete `MemRead` of the same stack address. -/
def demoStmts : List Stmt := [⟨[demoWriteRef]⟩, ⟨[demoReadRef]⟩]

/-- The demo basic block at address 0x100. -/
def demoBlock : Run := .irsb 0x100 demoStmts

/-- Initial walker state: one (outermost) frame, empty DDG. -/
def demoSt : WalkSt := ⟨[⟨some 0x80000000, []⟩], ∅, ∅, false⟩

/-- The frame of `demoSt` after the demo write has been recorded. -/
def demoFrame : StackFrame := ⟨some 0x80000000, [(0x7FFFFFF0, (0x100, 0))]⟩

/-- Walker state in which the demo write is already recorded. -/
def demoHitSt : WalkSt := ⟨[demoFrame], ∅, ∅, true⟩

/-- C8: during forward processing of a basic-block statement, the first
`MemRead` in the statement's reference list whose address is concrete and
whose frame lookup hits a recorded write adds the edge
`(run_addr, stmt_idx) ← (writer_run, writer_stmt)` to the DDG, and no further
`MemRead`s of that statement are scanned (the `break`: the result is
independent of the remaining suffix).  Second conjunct: the boundary
scenario — a concrete write followed by a concrete read of the same address
within one frame produces exactly the single edge `((0x100,1), (0x100,0))`. -/
theorem first_concrete_hit_single_edge :
    (∀ (old_run : Run) (lb ub irsb_addr i : Int) (r : Ref) (a : SymVal)
       (areg atmp dreg dtmp : Finset ℕ) (fr : StackFrame) (tpl : Int × Int)
       (pre : List Ref) (st : WalkSt),
      r.data = .memRead a areg atmp dreg dtmp →
      a.is_symbolic = false →
      (∀ ref ∈ pre, readMisses lb ub st.call_stack ref) →
      findFrameByAddr lb ub st.call_stack a.any = some fr →
      lookupA fr.addr_to_ref a.any = some tpl →
      (∀ suffix, processReads old_run lb ub irsb_addr i (pre ++ r :: suffix) st
          = processReads old_run lb ub irsb_addr i (pre ++ [r]) st)
      ∧ ∃ so, processReads old_run lb ub irsb_addr i (pre ++ [r]) st
          = .ok ⟨st.call_stack, insert ((irsb_addr, i), tpl) st.ddg, so,
                 st.reanalyze_successors⟩)
    ∧ processStmts demoBlock 0x7FFFE000 0x80000000 0x100 demoStmts demoSt
        = .ok ⟨[⟨some 0x80000000, [(0x7FFFFFF0, (0x100, 0))]⟩],
               {((0x100, 1), (0x100, 0))}, ∅, true⟩ := by
  constructor
  · intro old_run lb ub irsb_addr i r a areg atmp dreg dtmp fr tpl pre st hr hc hpre hfr hhit
    exact processReads_first_hit old_run lb ub irsb_addr i r a areg atmp dreg dtmp fr tpl
      hr hc pre st hpre hfr hhit
  · rfl

/-- Witness for `first_concrete_hit_single_edge`: the hit read of the demo
block, applied at concrete inputs. -/
theorem first_concrete_hit_single_edge_witness :
    (∀ suffix, processReads demoBlock 0x7FFFE000 0x80000000 0x100 1
          ([] ++ demoReadRef :: suffix) demoHitSt
        = processReads demoBlock 0x7FFFE000 0x80000000 0x100 1
          ([] ++ [demoReadRef]) demoHitSt)
    ∧ ∃ so, processReads demoBlock 0x7FFFE000 0x80000000 0x100 1
          ([] ++ [demoReadRef]) demoHitSt
        = .ok ⟨demoHitSt.call_stack,
               insert (((0x100 : Int), (1 : Int)), ((0x100 : Int), (0 : Int))) demoHitSt.ddg,
               so, demoHitSt.reanalyze_successors⟩ :=
  first_concrete_hit_single_edge.1 demoBlock 0x7FFFE000 0x80000000 0x100 1 demoReadRef
    ⟨false, 0x7FFFFFF0⟩ ∅ ∅ ∅ ∅ demoFrame (0x100, 0) [] demoHitSt rfl rfl
    (by simp) rfl rfl

/-!
## C2 / C10 concrete summary runs
-/

/-- A summary-run concrete memory write (address 0x30, outside the stack
window). -/
def demoProcWrite : Ref := ⟨-1, .memWrite ⟨false, 0x30⟩ ∅ ∅ ∅ ∅⟩

/-- A summary-run concrete memory read of the same address. -/
def demoProcRead : Ref := ⟨-1, .memRead ⟨false, 0x30⟩ ∅ ∅ ∅ ∅⟩

/-- The summary run at address 500 performing the write then the read. -/
def demoProc : Run := .procedure 500 [demoProcWrite, demoProcRead]

/-- C2 (code bug, evaluated at the failing input): with the stale loop index
`i = 5` left over from a preceding basic block, the summary run's concrete
write is recorded in `addr_to_ref` as `(500, 5)` — not the defined `(500, -1)`
sentinel — while the resolved summary read correctly keys its DDG edge by
reader statement `-1`; and with no preceding basic block (`i` unbound) the
write branch raises `NameError` instead. -/
theorem summary_write_uses_stale_index :
    processProcRefs demoProc 500 (some 5) 0x6000 0x8000 [demoProcWrite, demoProcRead]
        ⟨[⟨some 0x8000, []⟩], ∅, ∅, false⟩
      = .ok ⟨[⟨some 0x8000, [(0x30, (500, 5))]⟩], {((500, -1), (500, 5))}, ∅, true⟩
    ∧ ((500 : Int), (5 : Int)) ≠ ((500 : Int), (-1 : Int))
    ∧ processProcRefs demoProc 500 none 0x6000 0x8000 [demoProcWrite, demoProcRead]
        ⟨[⟨some 0x8000, []⟩], ∅, ∅, false⟩
      = .error "NameError: name i is not defined" :=
  ⟨rfl, by decide, rfl⟩

/-!
## `_trace_source` (lines 25-120)
-/

/-- The CFG interface `_trace_source` consumes: `get_predecessors`. -/
structure CFG where
  preds : Run → List Run

/-- Worklist state of `_trace_source`: the stack of
`(run, start_stmt, reg_deps, tmp_deps)` entries (head = top of the Python
list), the memo `traced` (run address → register-dep set) and the accumulated
`sources`. -/
structure TraceState where
  stack : List (Run × Int × Finset ℕ × Finset ℕ)
  traced : List (Int × Finset ℕ)
  sources : Finset (Int × Int)
deriving DecidableEq

/-- One statement of the in-block reverse walk (`_trace_source` lines 65-77):
`real_ref = stmt.refs[-1]`; a `RegWrite` of a wanted offset resolves it
(recording its statement id in `reg_dep_to_stmt_id`) and unions in its data
deps; a `TmpWrite` of a wanted temporary likewise. -/
def traceStmtStep (acc : Finset ℕ × Finset ℕ × List (ℕ × Int)) (p : ℕ × Stmt) :
    Finset ℕ × Finset ℕ × List (ℕ × Int) :=
  let (reg_deps, tmp_deps, m) := acc
  match p.2.refs.getLast? with
  | none => acc
  | some real_ref =>
      match real_ref.data with
      | .regWrite offset dreg dtmp =>
          if offset ∈ reg_deps then
            ((reg_deps.erase offset) ∪ dreg, tmp_deps ∪ dtmp, updA m offset (Int.ofNat p.1))
          else acc
      | .tmpWrite tmp dreg dtmp =>
          if tmp ∈ tmp_deps then
            (reg_deps ∪ dreg, (tmp_deps.erase tmp) ∪ dtmp, m)
          else acc
      | _ => acc

/-- One reference of the summary-run reverse walk (`_trace_source` lines
81-90); statement ids are `-1` there. -/
def traceRefStep (acc : Finset ℕ × Finset ℕ × List (ℕ × Int)) (ref : Ref) :
    Finset ℕ × Finset ℕ × List (ℕ × Int) :=
  let (reg_deps, tmp_deps, m) := acc
  match ref.data with
  | .regWrite offset dreg dtmp =>
      if offset ∈ reg_deps then
        ((reg_deps.erase offset) ∪ dreg, tmp_deps ∪ dtmp, updA m offset (-1))
      else acc
  | .tmpWrite tmp dreg dtmp =>
      if tmp ∈ tmp_deps then
        (reg_deps ∪ dreg, (tmp_deps.erase tmp) ∪ dtmp, m)
      else acc
  | _ => acc

/-- The in-run processing of one popped worklist entry (lines 57-90): walk a
basic block's statements in reverse from `start_stmt` (all of them when it is
`-1`), or a summary run's `refs()` reversed. -/
def traceRunRefs (run : Run) (stmt_id : Int) (reg_deps tmp_deps : Finset ℕ) :
    Finset ℕ × Finset ℕ × List (ℕ × Int) :=
  match run with
  | .irsb _ stmts =>
      let k : ℕ := if stmt_id = -1 then stmts.length else (stmt_id + 1).toNat
      ((enumList 0 (stmts.take k)).reverse).foldl traceStmtStep (reg_deps, tmp_deps, [])
  | .procedure _ refs =>
      refs.reverse.foldl traceRefStep (reg_deps, tmp_deps, [])

/-- Sentinel emission (lines 109-114): `(-1 * reg, -1)` for every register
still wanted that was never resolved into `reg_dep_to_stmt_id`. -/
def sentinelSources (reg_deps : Finset ℕ) (m : List (ℕ × Int)) :
    Finset (Int × Int) :=
  (reg_deps.filter (fun r => lookupA m r = none)).image
    (fun (r : ℕ) => ((-(r : Int) : Int), (-1 : Int)))

/-- One iteration of `_trace_source`'s `while` loop (lines 50-118).  The
Python `traced[run.addr] = reg_deps` aliases the popped set, which the
statement walk then mutates in place; its net effect — modelled here — is
that the memo holds the post-walk dependency set by the time the predecessor
checks read it.  Predecessors are pushed (with fresh copies) when unmemoised,
or re-pushed with the union when their memo does not contain the current
deps; sources gains `(run.addr, stmt_id)` for every resolved register, plus
the sentinels when the chain ends with no predecessors. -/
def traceStep (cfg : CFG) (s : TraceState) : TraceState :=
  match s.stack with
  | [] => s
  | (run, stmt_id, reg_deps, tmp_deps) :: rest =>
      let res := traceRunRefs run stmt_id reg_deps tmp_deps
      let reg' := res.1
      let m := res.2.2
      let traced' := updA s.traced run.addr reg'
      let predecessors := cfg.preds run
      let stack' :=
        if reg' = ∅ then rest
        else
          predecessors.foldl (fun acc p =>
            match lookupA traced' p.addr with
            | none => (p, -1, reg', (∅ : Finset ℕ)) :: acc
            | some old =>
                if ¬ reg' ⊆ old then (p, -1, reg' ∪ old, (∅ : Finset ℕ)) :: acc
                else acc) rest
      let sources' := m.foldl (fun acc pr => insert (run.addr, pr.2) acc) s.sources
      let sources'' :=
        if reg' = ∅ then sources'
        else if predecessors = [] then sources' ∪ sentinelSources reg' m
        else sources'
      ⟨stack', traced', sources''⟩

/-- `n` iterations of the `while` loop. -/
def traceLoop (cfg : CFG) (n : ℕ) (s : TraceState) : TraceState :=
  (traceStep cfg)^[n] s

/-- The seed computation of `_trace_source` (lines 34-48): read
`init_run.statements[init_ref.stmt_idx].refs[-1]` — an `AttributeError` on a
summary run, an `IndexError` out of range — and seed the dependency sets
according to the variant of that final reference. -/
def traceSeed (init_run : Run) (init_ref : Ref) :
    Except String (Finset ℕ × Finset ℕ) :=
  match init_run with
  | .procedure _ _ => .error "AttributeError: statements"
  | .irsb _ stmts =>
      match pyGet stmts init_ref.stmt_idx with
      | none => .error "IndexError: list index out of range"
      | some stmt =>
          match stmt.refs.getLast? with
          | none => .error "IndexError: refs list is empty"
          | some real_ref =>
              match real_ref.data with
              | .memWrite _ areg atmp dreg dtmp => .ok (dreg ∪ areg, dtmp ∪ atmp)
              | .memRead _ areg atmp _ _ => .ok (areg, atmp)
              | .regRead _ dreg dtmp => .ok (dreg, dtmp)
              | .regWrite _ dreg dtmp => .ok (dreg, dtmp)
              | .tmpRead _ dreg dtmp => .ok (dreg, dtmp)
              | .tmpWrite _ dreg dtmp => .ok (dreg, dtmp)

/-- `_trace_source` (lines 25-120): seed, then run the worklist loop with
`fuel` iterations (the Python loop has no fuel; a state whose stack never
empties makes the Python call diverge, see C3). -/
def traceSource (cfg : CFG) (init_run : Run) (init_ref : Ref) (fuel : ℕ) :
    Except String (Finset (Int × Int)) := do
  let (rd, td) ← traceSeed init_run init_ref
  let final := traceLoop cfg fuel ⟨[(init_run, init_ref.stmt_idx, rd, td)], [], ∅⟩
  if final.stack = [] then pure final.sources
  else .error "fuel exhausted"

/-!
## C3: non-termination of `_trace_source` on a two-block cycle
-/

/-- Block A, statement 0: write register 1 from register 2. -/
def loopRegWriteA : Ref := ⟨0, .regWrite 1 {2} ∅⟩

/-- Block A, statement 1: symbolic memory read whose address depends on
register 1. -/
def loopMemReadA : Ref := ⟨1, .memRead ⟨true, 0⟩ {1} ∅ ∅ ∅⟩

/-- Basic block A at address 100. -/
def loopBlockA : Run := .irsb 100 [⟨[loopRegWriteA]⟩, ⟨[loopMemReadA]⟩]

/-- Block B, statement 0: write register 2 from register 1. -/
def loopRegWriteB : Ref := ⟨0, .regWrite 2 {1} ∅⟩

/-- Basic block B at address 200. -/
def loopBlockB : Run := .irsb 200 [⟨[loopRegWriteB]⟩]

/-- The cyclic CFG: A and B are each other's (only) predecessor. -/
def loopCFG : CFG :=
  ⟨fun r => if r.addr = 100 then [loopBlockB]
            else if r.addr = 200 then [loopBlockA] else []⟩

/-- Initial tracer state for the symbolic read of block A. -/
def loopInit : TraceState := ⟨[(loopBlockA, 1, {1}, ∅)], [], ∅⟩

/-- The tracer state after two loop iterations, at which the execution
becomes periodic. -/
def loopCycleState : TraceState := traceLoop loopCFG 2 loopInit

theorem traceLoop_cycle : traceLoop loopCFG 2 loopCycleState = loopCycleState := by
  decide

theorem traceLoop_cycle_even :
    ∀ m, (traceStep loopCFG)^[2 * m] loopCycleState = loopCycleState := by
  intro m
  induction m with
  | zero => rfl
  | succ k ih =>
      rw [show 2 * (k + 1) = 2 * k + 2 by ring, Function.iterate_add_apply]
      have h2 : (traceStep loopCFG)^[2] loopCycleState = loopCycleState := traceLoop_cycle
      rw [h2, ih]

/-- C3 (code bug, evaluated at the failing input): on the two-block cycle
`loopBlockA ↔ loopBlockB` — A writes register 1 from register 2, B writes
register 2 from register 1 — the worklist of `_trace_source` never empties:
after two iterations the whole loop state repeats with period 2 (the memoised
set for A is overwritten/mutated back down to `{2}` each round, so the
subset check keeps re-enqueueing), and the Python `while` loop diverges on
this finite CFG. -/
theorem trace_source_diverges :
    (∀ n, (traceLoop loopCFG n loopInit).stack ≠ []) ∧
    traceLoop loopCFG 2 loopCycleState = loopCycleState := by
  refine ⟨?_, traceLoop_cycle⟩
  have hstep : (traceStep loopCFG loopCycleState).stack ≠ [] := by decide
  have hcyc : loopCycleState.stack ≠ [] := by decide
  intro n
  match n with
  | 0 => decide
  | 1 => decide
  | (m + 2) =>
      show ((traceStep loopCFG)^[m + 2] loopInit).stack ≠ []
      rw [Function.iterate_add_apply]
      have hbase : (traceStep loopCFG)^[2] loopInit = loopCycleState := rfl
      rw [hbase]
      rw [show m = m % 2 + 2 * (m / 2) by omega, Function.iterate_add_apply,
        traceLoop_cycle_even]
      have hlt : m % 2 = 0 ∨ m % 2 = 1 := Nat.mod_two_eq_zero_or_one m
      rcases hlt with h | h
      · rw [h]
        exact hcyc
      · rw [h]
        exact hstep

/-!
## C5: sentinel sources
-/

/-- A read whose address depends on register offset 0, never written. -/
def sentinelRead : Ref := ⟨0, .memRead ⟨true, 0⟩ {0} ∅ ∅ ∅⟩

/-- A single-block run containing only `sentinelRead`, with no
predecessors. -/
def sentinelBlock : Run := .irsb 300 [⟨[sentinelRead]⟩]

/-- A CFG with no edges. -/
def emptyCFG : CFG := ⟨fun _ => []⟩

/-- C5 counterexample: tracing a read whose address depends on register
offset 0, on a run with no predecessors, emits the sentinel source
`(-1 * 0, -1) = (0, -1)`, whose address component is not `< 0` — refuting
"every sentinel source satisfies addr < 0". -/
theorem sentinel_zero_offset_not_negative :
    traceSource emptyCFG sentinelBlock sentinelRead 1 = .ok {((0 : Int), (-1 : Int))}
    ∧ ((0 : Int), (-1 : Int)) ∈ sentinelSources {0} []
    ∧ ¬ ((0 : Int) < 0) :=
  ⟨rfl, by decide, by decide⟩

/-- C5 (amended): every sentinel source emitted when a use-def chain ends is
`(-offset, -1)` for some still-unresolved register `offset`; its address
component is therefore `≤ 0`, and `< 0` for every positive offset (offset 0
yields address 0, which can collide with a real run address). -/
theorem sentinel_sources_nonpositive (reg_deps : Finset ℕ) (m : List (ℕ × Int))
    (p : Int × Int) (hp : p ∈ sentinelSources reg_deps m) :
    p.2 = -1 ∧ p.1 ≤ 0 ∧ ∃ r ∈ reg_deps, lookupA m r = none ∧ p.1 = -(r : Int)
      ∧ (0 < r → p.1 < 0) := by
  unfold sentinelSources at hp
  obtain ⟨r, hr, hpr⟩ := Finset.mem_image.mp hp
  obtain ⟨hrd, hrn⟩ := Finset.mem_filter.mp hr
  subst hpr
  refine ⟨rfl, by simp, r, hrd, by simpa using hrn, rfl, ?_⟩
  intro h0
  simpa using h0

/-- Witness for `sentinel_sources_nonpositive` at register offset 5. -/
theorem sentinel_sources_nonpositive_witness :
    (((-5 : Int), (-1 : Int)).2 = -1) ∧ (((-5 : Int), (-1 : Int)).1 ≤ 0) ∧
      ∃ r ∈ ({5} : Finset ℕ), lookupA ([] : List (ℕ × Int)) r = none ∧
        ((-5 : Int), (-1 : Int)).1 = -(r : Int) ∧
        (0 < r → ((-5 : Int), (-1 : Int)).1 < 0) :=
  sentinel_sources_nonpositive {5} [] ((-5 : Int), (-1 : Int)) (by decide)

/-!
## C7: the initial dependency seed
-/

/-- A `MemRead` sub-expression with address register deps `{7}`. -/
def seedDemoRead : Ref := ⟨0, .memRead ⟨true, 0⟩ {7} ∅ ∅ ∅⟩

/-- The statement's final (real) reference: a `TmpWrite` with data register
deps `{3}`. -/
def seedDemoTmpWrite : Ref := ⟨0, .tmpWrite 4 {3} ∅⟩

/-- A block whose only statement is a load: `[MemRead, TmpWrite]`. -/
def seedDemoBlock : Run := .irsb 400 [⟨[seedDemoRead, seedDemoTmpWrite]⟩]

/-- C7 counterexample: the seed is computed from `refs[-1]` of the statement,
not from the traced ref itself.  Tracing the `MemRead` (addr_reg_deps = {7})
of a statement whose final reference is a `TmpWrite` with data_reg_deps = {3}
seeds with `{3}` — not the `{7}` the claim prescribes for a `MemRead`. -/
theorem trace_seed_ignores_traced_ref :
    traceSeed seedDemoBlock seedDemoRead = .ok ({3}, ∅)
    ∧ seedDemoRead.data = .memRead ⟨true, 0⟩ {7} ∅ ∅ ∅
    ∧ (({3} : Finset ℕ), (∅ : Finset ℕ)) ≠ (({7} : Finset ℕ), (∅ : Finset ℕ)) :=
  ⟨rfl, rfl, by decide⟩

/-- C7 (amended): the initial dependency seed is computed from the *final*
reference (`refs[-1]`) of the statement at `ref.stmt_idx` (the real ref), by
that reference's variant: `MemWrite` seeds with the unions of address and
data deps, `MemRead` with the address deps only, and any other variant with
the data deps only.  This coincides with the claim exactly when the traced
ref is itself the statement's final reference. -/
theorem trace_seed_from_real_ref (a : Int) (stmts : List Stmt) (ref : Ref)
    (stmt : Stmt) (real_ref : Ref)
    (hs : pyGet stmts ref.stmt_idx = some stmt)
    (hl : stmt.refs.getLast? = some real_ref) :
    traceSeed (.irsb a stmts) ref =
      .ok (match real_ref.data with
        | .memWrite _ areg atmp dreg dtmp => (areg ∪ dreg, atmp ∪ dtmp)
        | .memRead _ areg atmp _ _ => (areg, atmp)
        | .regRead _ dreg dtmp => (dreg, dtmp)
        | .regWrite _ dreg dtmp => (dreg, dtmp)
        | .tmpRead _ dreg dtmp => (dreg, dtmp)
        | .tmpWrite _ dreg dtmp => (dreg, dtmp)) := by
  simp only [traceSeed, hs, hl]
  cases hd : real_ref.data with
  | memWrite w areg atmp dreg dtmp =>
      simp [Finset.union_comm]
  | memRead w areg atmp dreg dtmp => rfl
  | regRead o dreg dtmp => rfl
  | regWrite o dreg dtmp => rfl
  | tmpRead t dreg dtmp => rfl
  | tmpWrite t dreg dtmp => rfl

/-- Witness for `trace_seed_from_real_ref` on the demo load statement. -/
theorem trace_seed_from_real_ref_witness :
    traceSeed (.irsb 400 [⟨[seedDemoRead, seedDemoTmpWrite]⟩]) seedDemoRead =
      .ok (match seedDemoTmpWrite.data with
        | .memWrite _ areg atmp dreg dtmp => (areg ∪ dreg, atmp ∪ dtmp)
        | .memRead _ areg atmp _ _ => (areg, atmp)
        | .regRead _ dreg dtmp => (dreg, dtmp)
        | .regWrite _ dreg dtmp => (dreg, dtmp)
        | .tmpRead _ dreg dtmp => (dreg, dtmp)
        | .tmpWrite _ dreg dtmp => (dreg, dtmp)) :=
  trace_seed_from_real_ref 400 [⟨[seedDemoRead, seedDemoTmpWrite]⟩] seedDemoRead
    ⟨[seedDemoRead, seedDemoTmpWrite]⟩ seedDemoTmpWrite rfl rfl

/-!
## C10: symbolic summary-run refs reach `_trace_source`'s error branch
-/

/-- A summary-run memory write with a symbolic address. -/
def demoSymProcWrite : Ref := ⟨-1, .memWrite ⟨true, 0⟩ ∅ ∅ ∅ ∅⟩

/-- The summary run at address 600 performing that symbolic write. -/
def demoSymProc : Run := .procedure 600 [demoSymProcWrite]

/-- C10: the forward walk's summary-run branch inserts
`(summary_run, ref)` into the symbolic-op set when the summary run has a
symbolic memory address; `_trace_source` then unconditionally reads
`init_run.statements[...]`, which a summary run does not have, so the
reconciliation pass fails (for every fuel) instead of returning sources —
the error branch is reachable from `construct()`. -/
theorem symbolic_summary_ref_breaks_trace :
    processProcRefs demoSymProc 600 none 0x6000 0x8000 [demoSymProcWrite]
        ⟨[⟨some 0x8000, []⟩], ∅, ∅, false⟩
      = .ok ⟨[⟨some 0x8000, []⟩], ∅, {(demoSymProc, demoSymProcWrite)}, false⟩
    ∧ ∀ fuel cfg, traceSource cfg demoSymProc demoSymProcWrite fuel
        = .error "AttributeError: statements" := by
  refine ⟨rfl, ?_⟩
  intro fuel cfg
  rfl

/-!
## `_solve_symbolic_mem_operations` (lines 122-147)
-/

/-- `defaultdict(list)` append: `d[key].append(v)`. -/
def addProducer (m : List ((Int × Int) × List (Int × Ref))) (k : Int × Int)
    (v : Int × Ref) : List ((Int × Int) × List (Int × Ref)) :=
  match m with
  | [] => [(k, [v])]
  | (k', l) :: rest =>
      if k' = k then (k', l ++ [v]) :: rest else (k', l) :: addProducer rest k v

/-- Bucket one traced source for one op (`_solve_symbolic_mem_operations`
lines 136-140): a `SimMemRead` op appends `(run.addr, ref)` to the read
producer map at that source, a `SimMemWrite` to the write producer map;
anything else is ignored. -/
def bucketOp (op : Run × Ref)
    (mm : List ((Int × Int) × List (Int × Ref)) × List ((Int × Int) × List (Int × Ref)))
    (src : Int × Int) :
    List ((Int × Int) × List (Int × Ref)) × List ((Int × Int) × List (Int × Ref)) :=
  match op.2.data with
  | .memRead _ _ _ _ _ => (addProducer mm.1 src (op.1.addr, op.2), mm.2)
  | .memWrite _ _ _ _ _ => (mm.1, addProducer mm.2 src (op.1.addr, op.2))
  | _ => mm

/-- The bucketing loop (lines 134-140) from an arbitrary starting pair of
maps: for each `(run, ref)` op, trace its sources (`trace` yields the set of
sources as a list, in whatever order the Python set iterates) and bucket each
one. -/
def bucketAll (trace : Run → Ref → List (Int × Int)) (ops : List (Run × Ref))
    (mm0 : List ((Int × Int) × List (Int × Ref)) × List ((Int × Int) × List (Int × Ref))) :
    List ((Int × Int) × List (Int × Ref)) × List ((Int × Int) × List (Int × Ref)) :=
  ops.foldl (fun mm op => (trace op.1 op.2).foldl (bucketOp op) mm) mm0

/-- `(mem_read_producers, mem_write_producers)` built from empty maps. -/
def buildProducers (trace : Run → Ref → List (Int × Int))
    (ops : List (Run × Ref)) :
    List ((Int × Int) × List (Int × Ref)) × List ((Int × Int) × List (Int × Ref)) :=
  bucketAll trace ops ([], [])

/-- The nested `for read ... for write ...` edge emission (lines 145-147). -/
def crossEdges (lst_reads lst_writes : List (Int × Ref))
    (acc : Finset ((Int × Int) × (Int × Int))) :
    Finset ((Int × Int) × (Int × Int)) :=
  lst_reads.foldl (fun acc2 rd =>
    lst_writes.foldl (fun acc3 wr =>
      insert ((rd.1, rd.2.stmt_idx), (wr.1, wr.2.stmt_idx)) acc3) acc2) acc

/-- One entry of the `for tpl, lst_writes in mem_write_producers.items()`
loop (lines 142-144): when the source key is also in the read map, emit the
cross product. -/
def solveStep (mr : List ((Int × Int) × List (Int × Ref)))
    (acc : Finset ((Int × Int) × (Int × Int)))
    (kv : (Int × Int) × List (Int × Ref)) :
    Finset ((Int × Int) × (Int × Int)) :=
  match lookupA mr kv.1 with
  | some lst_reads => crossEdges lst_reads kv.2 acc
  | none => acc

/-- `_solve_symbolic_mem_operations` (lines 122-147): bucket every op's
sources, then for every source key of the write map also present in the read
map add the full read×write cross product of edges to the DDG. -/
def solveSymbolicMemOps (trace : Run → Ref → List (Int × Int))
    (ops : List (Run × Ref)) (ddg : Finset ((Int × Int) × (Int × Int))) :
    Finset ((Int × Int) × (Int × Int)) :=
  let mm := buildProducers trace ops
  mm.2.foldl (solveStep mm.1) ddg

theorem lookupA_addProducer (m : List ((Int × Int) × List (Int × Ref)))
    (k k' : Int × Int) (v : Int × Ref) :
    lookupA (addProducer m k v) k'
      = if k' = k then some ((lookupA m k).getD [] ++ [v]) else lookupA m k' := by
  induction m with
  | nil =>
      by_cases h : k' = k
      · simp [addProducer, lookupA, h]
      · simp [addProducer, lookupA, h]
  | cons p rest ih =>
      obtain ⟨k0, l0⟩ := p
      by_cases h0 : k0 = k
      · subst h0
        by_cases h : k' = k0 <;> simp [addProducer, lookupA, h]
      · have h0' : ¬ k = k0 := fun hh => h0 hh.symm
        by_cases h : k' = k0
        · subst h
          simp [addProducer, lookupA, h0]
        · simp [addProducer, lookupA, h0, h0', h, ih]

/-- Membership in the bucket stored at key `k`. -/
def bucketMem (m : List ((Int × Int) × List (Int × Ref))) (k : Int × Int)
    (x : Int × Ref) : Prop :=
  x ∈ (lookupA m k).getD []

theorem bucketMem_addProducer (m : List ((Int × Int) × List (Int × Ref)))
    (k k' : Int × Int) (v x : Int × Ref) (h : bucketMem m k' x) :
    bucketMem (addProducer m k v) k' x := by
  unfold bucketMem at h ⊢
  rw [lookupA_addProducer]
  by_cases hk : k' = k
  · subst hk
    rw [if_pos rfl]
    simp only [Option.getD_some, List.mem_append]
    exact Or.inl h
  · rw [if_neg hk]
    exact h

theorem bucketMem_addProducer_self (m : List ((Int × Int) × List (Int × Ref)))
    (k : Int × Int) (v : Int × Ref) : bucketMem (addProducer m k v) k v := by
  unfold bucketMem
  rw [lookupA_addProducer, if_pos rfl]
  simp

theorem bucketMem_bucketOp_mono (op : Run × Ref)
    (mm : List ((Int × Int) × List (Int × Ref)) × List ((Int × Int) × List (Int × Ref)))
    (src k : Int × Int) (x : Int × Ref) :
    (bucketMem mm.1 k x → bucketMem (bucketOp op mm src).1 k x)
    ∧ (bucketMem mm.2 k x → bucketMem (bucketOp op mm src).2 k x) := by
  unfold bucketOp
  cases op.2.data with
  | memRead a b c d e =>
      exact ⟨fun h => bucketMem_addProducer mm.1 src k _ x h, fun h => h⟩
  | memWrite a b c d e =>
      exact ⟨fun h => h, fun h => bucketMem_addProducer mm.2 src k _ x h⟩
  | regRead a b c => exact ⟨fun h => h, fun h => h⟩
  | regWrite a b c => exact ⟨fun h => h, fun h => h⟩
  | tmpRead a b c => exact ⟨fun h => h, fun h => h⟩
  | tmpWrite a b c => exact ⟨fun h => h, fun h => h⟩

theorem bucketMem_srcFold_mono (op : Run × Ref) (srcs : List (Int × Int)) :
    ∀ mm (k : Int × Int) (x : Int × Ref),
      (bucketMem mm.1 k x → bucketMem (srcs.foldl (bucketOp op) mm).1 k x)
      ∧ (bucketMem mm.2 k x → bucketMem (srcs.foldl (bucketOp op) mm).2 k x) := by
  induction srcs with
  | nil => exact fun mm k x => ⟨id, id⟩
  | cons s rest ih =>
      intro mm k x
      refine ⟨fun h => ?_, fun h => ?_⟩
      · exact (ih (bucketOp op mm s) k x).1 ((bucketMem_bucketOp_mono op mm s k x).1 h)
      · exact (ih (bucketOp op mm s) k x).2 ((bucketMem_bucketOp_mono op mm s k x).2 h)

theorem bucketMem_srcFold_read (op : Run × Ref) (a : SymVal) (b c d e : Finset ℕ)
    (hv : op.2.data = .memRead a b c d e) (srcs : List (Int × Int)) :
    ∀ mm (src : Int × Int), src ∈ srcs →
      bucketMem (srcs.foldl (bucketOp op) mm).1 src (op.1.addr, op.2) := by
  induction srcs with
  | nil => intro mm src h; cases h
  | cons s rest ih =>
      intro mm src h
      rcases List.mem_cons.mp h with h | h
      · subst h
        have hstep : bucketMem (bucketOp op mm src).1 src (op.1.addr, op.2) := by
          simp only [bucketOp, hv]
          exact bucketMem_addProducer_self mm.1 src (op.1.addr, op.2)
        exact (bucketMem_srcFold_mono op rest (bucketOp op mm src) src (op.1.addr, op.2)).1 hstep
      · exact ih (bucketOp op mm s) src h

theorem bucketMem_srcFold_write (op : Run × Ref) (a : SymVal) (b c d e : Finset ℕ)
    (hv : op.2.data = .memWrite a b c d e) (srcs : List (Int × Int)) :
    ∀ mm (src : Int × Int), src ∈ srcs →
      bucketMem (srcs.foldl (bucketOp op) mm).2 src (op.1.addr, op.2) := by
  induction srcs with
  | nil => intro mm src h; cases h
  | cons s rest ih =>
      intro mm src h
      rcases List.mem_cons.mp h with h | h
      · subst h
        have hstep : bucketMem (bucketOp op mm src).2 src (op.1.addr, op.2) := by
          simp only [bucketOp, hv]
          exact bucketMem_addProducer_self mm.2 src (op.1.addr, op.2)
        exact (bucketMem_srcFold_mono op rest (bucketOp op mm src) src (op.1.addr, op.2)).2 hstep
      · exact ih (bucketOp op mm s) src h

theorem bucketMem_bucketAll_mono (trace : Run → Ref → List (Int × Int))
    (ops : List (Run × Ref)) :
    ∀ mm (k : Int × Int) (x : Int × Ref),
      (bucketMem mm.1 k x → bucketMem (bucketAll trace ops mm).1 k x)
      ∧ (bucketMem mm.2 k x → bucketMem (bucketAll trace ops mm).2 k x) := by
  induction ops with
  | nil => exact fun mm k x => ⟨id, id⟩
  | cons op rest ih =>
      intro mm k x
      refine ⟨fun h => ?_, fun h => ?_⟩
      · exact (ih _ k x).1 ((bucketMem_srcFold_mono op (trace op.1 op.2) mm k x).1 h)
      · exact (ih _ k x).2 ((bucketMem_srcFold_mono op (trace op.1 op.2) mm k x).2 h)

theorem bucketMem_bucketAll_read (trace : Run → Ref → List (Int × Int))
    (ops : List (Run × Ref)) (rop : Run × Ref) (a : SymVal) (b c d e : Finset ℕ)
    (hv : rop.2.data = .memRead a b c d e) :
    ∀ mm (src : Int × Int), rop ∈ ops → src ∈ trace rop.1 rop.2 →
      bucketMem (bucketAll trace ops mm).1 src (rop.1.addr, rop.2) := by
  induction ops with
  | nil => intro mm src h; cases h
  | cons op rest ih =>
      intro mm src hm hs
      rcases List.mem_cons.mp hm with h | h
      · subst h
        have hstep := bucketMem_srcFold_read rop a b c d e hv (trace rop.1 rop.2) mm src hs
        exact (bucketMem_bucketAll_mono trace rest _ src _).1 hstep
      · exact ih _ src h hs

theorem bucketMem_bucketAll_write (trace : Run → Ref → List (Int × Int))
    (ops : List (Run × Ref)) (wop : Run × Ref) (a : SymVal) (b c d e : Finset ℕ)
    (hv : wop.2.data = .memWrite a b c d e) :
    ∀ mm (src : Int × Int), wop ∈ ops → src ∈ trace wop.1 wop.2 →
      bucketMem (bucketAll trace ops mm).2 src (wop.1.addr, wop.2) := by
  induction ops with
  | nil => intro mm src h; cases h
  | cons op rest ih =>
      intro mm src hm hs
      rcases List.mem_cons.mp hm with h | h
      · subst h
        have hstep := bucketMem_srcFold_write wop a b c d e hv (trace wop.1 wop.2) mm src hs
        exact (bucketMem_bucketAll_mono trace rest _ src _).2 hstep
      · exact ih _ src h hs

theorem lookupA_mem {α β : Type} [DecidableEq α] (m : List (α × β)) (k : α) (v : β)
    (h : lookupA m k = some v) : (k, v) ∈ m := by
  induction m with
  | nil => cases h
  | cons p rest ih =>
      obtain ⟨k0, v0⟩ := p
      by_cases hk : k = k0
      · subst hk
        simp [lookupA] at h
        simp [h]
      · simp [lookupA, hk] at h
        exact List.mem_cons_of_mem _ (ih h)

theorem foldl_insert_subset {α : Type} (f : α → (Int × Int) × (Int × Int)) :
    ∀ (l : List α) (acc : Finset ((Int × Int) × (Int × Int))),
      acc ⊆ l.foldl (fun a x => insert (f x) a) acc := by
  intro l
  induction l with
  | nil => exact fun acc e he => he
  | cons x rest ih =>
      intro acc e he
      exact ih (insert (f x) acc) (Finset.mem_insert_of_mem he)

theorem foldl_insert_mem {α : Type} (f : α → (Int × Int) × (Int × Int)) (l : List α)
    (x : α) (hx : x ∈ l) :
    ∀ acc : Finset ((Int × Int) × (Int × Int)),
      f x ∈ l.foldl (fun a y => insert (f y) a) acc := by
  induction l with
  | nil => cases hx
  | cons y rest ih =>
      intro acc
      rcases List.mem_cons.mp hx with h | h
      · subst h
        exact foldl_insert_subset f rest _ (Finset.mem_insert_self _ _)
      · exact ih h _

theorem crossEdges_subset (lst_writes : List (Int × Ref)) :
    ∀ (lst_reads : List (Int × Ref)) (acc : Finset ((Int × Int) × (Int × Int))),
      acc ⊆ crossEdges lst_reads lst_writes acc := by
  intro lst_reads
  induction lst_reads with
  | nil => intro acc e he; simpa [crossEdges] using he
  | cons rd rest ih =>
      intro acc e he
      have h1 : e ∈ lst_writes.foldl
          (fun acc3 wr => insert ((rd.1, rd.2.stmt_idx), (wr.1, wr.2.stmt_idx)) acc3) acc :=
        foldl_insert_subset (fun wr => ((rd.1, rd.2.stmt_idx), (wr.1, wr.2.stmt_idx)))
          lst_writes acc he
      exact ih _ h1

theorem crossEdges_mem (lst_writes : List (Int × Ref)) (wr : Int × Ref)
    (hw : wr ∈ lst_writes) :
    ∀ (lst_reads : List (Int × Ref)) (rd : Int × Ref), rd ∈ lst_reads →
      ∀ acc, ((rd.1, rd.2.stmt_idx), (wr.1, wr.2.stmt_idx))
          ∈ crossEdges lst_reads lst_writes acc := by
  intro lst_reads
  induction lst_reads with
  | nil => intro rd h; cases h
  | cons rd0 rest ih =>
      intro rd h acc
      rcases List.mem_cons.mp h with h | h
      · subst h
        have h1 : ((rd.1, rd.2.stmt_idx), (wr.1, wr.2.stmt_idx)) ∈
            lst_writes.foldl
              (fun acc3 w => insert ((rd.1, rd.2.stmt_idx), (w.1, w.2.stmt_idx)) acc3) acc :=
          foldl_insert_mem (fun w => ((rd.1, rd.2.stmt_idx), (w.1, w.2.stmt_idx)))
            lst_writes wr hw acc
        exact crossEdges_subset lst_writes rest _ h1
      · exact ih rd h _

theorem solveStep_subset (mr : List ((Int × Int) × List (Int × Ref)))
    (acc : Finset ((Int × Int) × (Int × Int))) (kv : (Int × Int) × List (Int × Ref)) :
    acc ⊆ solveStep mr acc kv := by
  unfold solveStep
  cases h : lookupA mr kv.1 with
  | none => exact fun e he => he
  | some lst => exact crossEdges_subset kv.2 lst acc

theorem solveFold_subset (mr : List ((Int × Int) × List (Int × Ref)))
    (entries : List ((Int × Int) × List (Int × Ref))) :
    ∀ acc, acc ⊆ entries.foldl (solveStep mr) acc := by
  induction entries with
  | nil => exact fun acc e he => he
  | cons kv rest ih =>
      intro acc e he
      exact ih _ (solveStep_subset mr acc kv he)

theorem solveFold_mem (mr : List ((Int × Int) × List (Int × Ref))) (src : Int × Int)
    (lr lw : List (Int × Ref)) (hlr : lookupA mr src = some lr)
    (rv wv : Int × Ref) (hr : rv ∈ lr) (hw : wv ∈ lw) :
    ∀ (entries : List ((Int × Int) × List (Int × Ref))) acc, (src, lw) ∈ entries →
      ((rv.1, rv.2.stmt_idx), (wv.1, wv.2.stmt_idx))
        ∈ entries.foldl (solveStep mr) acc := by
  intro entries
  induction entries with
  | nil => intro acc h; cases h
  | cons kv rest ih =>
      intro acc h
      rcases List.mem_cons.mp h with h | h
      · have hstep : solveStep mr acc kv = crossEdges lr kv.2 acc := by
          unfold solveStep
          rw [show kv.1 = src from by rw [← h], hlr]
        have hlw : lw = kv.2 := by rw [← h]
        have hedge : ((rv.1, rv.2.stmt_idx), (wv.1, wv.2.stmt_idx))
            ∈ crossEdges lr kv.2 acc :=
          crossEdges_mem kv.2 wv (hlw ▸ hw) lr rv hr acc
        exact solveFold_subset mr rest _ (hstep ▸ hedge)
      · exact ih _ h

/-- C9: after tracing all symbolic memory operations, for every source that
appears both among the traced sources of a symbolic `MemRead` op and among
those of a symbolic `MemWrite` op, and for every such read/write pair of ops,
the edge `(read_run, read_ref.stmt_idx) ← (write_run, write_ref.stmt_idx)` is
added by `_solve_symbolic_mem_operations` (full cross product per shared
source). -/
theorem symbolic_cross_product_edges (trace : Run → Ref → List (Int × Int))
    (ops : List (Run × Ref)) (ddg : Finset ((Int × Int) × (Int × Int)))
    (rop wop : Run × Ref) (src : Int × Int)
    (ra : SymVal) (r1 r2 r3 r4 : Finset ℕ) (wa : SymVal) (w1 w2 w3 w4 : Finset ℕ)
    (hrv : rop.2.data = .memRead ra r1 r2 r3 r4)
    (hwv : wop.2.data = .memWrite wa w1 w2 w3 w4)
    (hrm : rop ∈ ops) (hwm : wop ∈ ops)
    (hrs : src ∈ trace rop.1 rop.2) (hws : src ∈ trace wop.1 wop.2) :
    ((rop.1.addr, rop.2.stmt_idx), (wop.1.addr, wop.2.stmt_idx))
      ∈ solveSymbolicMemOps trace ops ddg := by
  have hbr := bucketMem_bucketAll_read trace ops rop ra r1 r2 r3 r4 hrv ([], []) src hrm hrs
  have hbw := bucketMem_bucketAll_write trace ops wop wa w1 w2 w3 w4 hwv ([], []) src hwm hws
  unfold bucketMem at hbr hbw
  show ((rop.1.addr, rop.2.stmt_idx), (wop.1.addr, wop.2.stmt_idx))
    ∈ (buildProducers trace ops).2.foldl (solveStep (buildProducers trace ops).1) ddg
  cases hlr : lookupA (bucketAll trace ops ([], [])).1 src with
  | none =>
      rw [hlr] at hbr
      simp at hbr
  | some lr =>
      cases hlw : lookupA (bucketAll trace ops ([], [])).2 src with
      | none =>
          rw [hlw] at hbw
          simp at hbw
      | some lw =>
          rw [hlr] at hbr
          rw [hlw] at hbw
          simp only [Option.getD_some] at hbr hbw
          have hment : (src, lw) ∈ (bucketAll trace ops ([], [])).2 :=
            lookupA_mem _ src lw hlw
          exact solveFold_mem (bucketAll trace ops ([], [])).1 src lr lw hlr
            (rop.1.addr, rop.2) (wop.1.addr, wop.2) hbr hbw
            (bucketAll trace ops ([], [])).2 ddg hment

/-- A symbolic read op for the C9 witness. -/
def crossDemoReadOp : Run × Ref := (.irsb 700 [], ⟨3, .memRead ⟨true, 0⟩ ∅ ∅ ∅ ∅⟩)

/-- A symbolic write op for the C9 witness. -/
def crossDemoWriteOp : Run × Ref := (.irsb 800 [], ⟨4, .memWrite ⟨true, 0⟩ ∅ ∅ ∅ ∅⟩)

/-- A tracer assigning the single shared source `(42, 0)` to every op. -/
def crossDemoTrace : Run → Ref → List (Int × Int) := fun _ _ => [(42, 0)]

/-- Witness for `symbolic_cross_product_edges`: the read at `(700, 3)` and the
write at `(800, 4)` share source `(42, 0)`, so the edge is emitted. -/
theorem symbolic_cross_product_edges_witness :
    (((700 : Int), (3 : Int)), ((800 : Int), (4 : Int)))
      ∈ solveSymbolicMemOps crossDemoTrace [crossDemoReadOp, crossDemoWriteOp] ∅ :=
  symbolic_cross_product_edges crossDemoTrace [crossDemoReadOp, crossDemoWriteOp] ∅
    crossDemoReadOp crossDemoWriteOp (42, 0) ⟨true, 0⟩ ∅ ∅ ∅ ∅ ⟨true, 0⟩ ∅ ∅ ∅ ∅
    rfl rfl (by simp) (by simp [crossDemoReadOp, crossDemoWriteOp])
    (by simp [crossDemoTrace]) (by simp [crossDemoTrace])
